import Mathlib

/-!
Verification of the Mobbin scraper content script (src/content.js, the
canonical "v3 FIXED" implementation).  The scroll-and-collect loop, the
DOM image extraction, the URL validation, the storage upsert and the
message dispatcher are embedded as executable Lean definitions, and the
specification's claims about them are settled as theorems below.

Strings are modelled with Lean's `String`; the handful of JavaScript
string primitives the code uses (`split` on a single character,
`includes`, template literals, `toLowerCase`, the whitespace regex) are
implemented from scratch as structurally recursive functions so that
concrete runs evaluate inside the kernel.
-/

namespace MobbinVault

/-! ## Configuration constants (CONFIG in content.js) -/

def SCROLL_DELAY : Nat := 500
def INITIAL_DELAY : Nat := 500
def SCROLL_THRESHOLD : Int := 100
def MAX_NO_CONTENT_ATTEMPTS : Nat := 2
def MAX_RETRY_ATTEMPTS : Nat := 3

/-! ## String primitives

JavaScript semantics modelled on `List Char`:
`splitCh` is `String.prototype.split` with a one-character separator,
`isSubChars` is `String.prototype.includes`,
`collapseWsAux` is `replace(/\s+/g, "-")`. -/

/-- `s.split(sep)` for a single-character separator, on char lists.
Always returns a non-empty list of pieces. -/
def splitCh (sep : Char) : List Char → List (List Char)
  | [] => [[]]
  | c :: cs =>
    if c = sep then [] :: splitCh sep cs
    else
      match splitCh sep cs with
      | [] => [[c]]
      | h :: t => (c :: h) :: t

/-- JavaScript `hay.includes(needle)` on char lists. -/
def isSubChars (needle : List Char) : List Char → Bool
  | [] => needle.isEmpty
  | c :: cs => needle.isPrefixOf (c :: cs) || isSubChars needle cs

/-- `url.includes("http")` from extractImagesFromDOM. -/
def containsHttp (s : String) : Bool :=
  isSubChars "http".toList s.toList

/-- `s.split(sep)[0]`: the prefix of `s` before the first `sep`. -/
def beforeChar (sep : Char) (s : String) : String :=
  String.mk ((splitCh sep s.toList).headD [])

/-- The characters the JavaScript `\s` class matches (ASCII portion);
used by the slugification regex `replace(/\s+/g, "-")`. -/
def isJsWhitespace (c : Char) : Bool :=
  c = ' ' || c = '\t' || c = '\n' || c = '\r' || c = '\x0b' || c = '\x0c'

/-- `replace(/\s+/g, "-")`: each maximal whitespace run becomes one
hyphen.  `prevWs` records whether the previous character was part of a
run already replaced. -/
def collapseWsAux (prevWs : Bool) : List Char → List Char
  | [] => []
  | c :: cs =>
    if isJsWhitespace c then
      if prevWs then collapseWsAux true cs
      else '-' :: collapseWsAux true cs
    else c :: collapseWsAux false cs

/-- `meta.name.replace(/\s+/g, "-").toLowerCase()` from saveToStorage
(ASCII model of `toLowerCase`). -/
def slugify (s : String) : String :=
  String.mk ((collapseWsAux false s.toList).map Char.toLower)

/-! ## URL validation (isValidImageUrl in content.js)

`new URL(url)` is modelled at the scheme level: the constructor
succeeds on inputs that start with a well-formed scheme followed by a
colon, and `urlObj.protocol` is that scheme lower-cased.  This is
exactly the part of WHATWG parsing the validator observes. -/

/-- The characters before the first colon, or `none` if the string has
no colon. -/
def schemeChars : List Char → Option (List Char)
  | [] => none
  | c :: cs =>
    if c = ':' then some []
    else (schemeChars cs).map (fun l => c :: l)

/-- A well-formed URL scheme name: a letter followed by letters,
digits, `+`, `-` or `.`. -/
def validSchemeName : List Char → Bool
  | [] => false
  | c :: cs => c.isAlpha && cs.all (fun d => d.isAlphanum || d = '+' || d = '-' || d = '.')

/-- The lower-cased scheme of a URL, when the URL parses. -/
def schemeOf (url : String) : Option String :=
  match schemeChars url.toList with
  | some cs => if validSchemeName cs then some (String.mk (cs.map Char.toLower)) else none
  | none => none

/-- isValidImageUrl: the URL is a non-empty string that parses as an
absolute URL whose protocol is `http:` or `https:`. -/
def isValidImageUrl (url : String) : Bool :=
  if url = "" then false
  else
    match schemeOf url with
    | some s => s = "http" || s = "https"
    | none => false

/-! ## DOM image extraction (extractImagesFromDOM in content.js)

An image element is abstracted to what the function observes: its
(already resolved) `src` string and whether `img.closest("li")` finds a
list-item ancestor.  `querySelectorAll` returns matches in document
order, so the DOM is a list of such elements. -/

structure ImgElement where
  src : String
  inListItem : Bool
deriving DecidableEq, Repr

/-- extractImagesFromDOM: keep images not nested in a list item whose
`src` is truthy and contains `"http"`, and push `src.split("?")[0]`
in document order. -/
def extractImagesFromDOM (dom : List ImgElement) : List String :=
  (dom.filter (fun img => !img.inListItem && img.src ≠ "" && containsHttp img.src)).map
    (fun img => beforeChar '?' img.src)

/-! ## Capture fold (performSmartScrape lines 543-554)

Per harvested URL: `if (!scannedUrlSet.has(url) && isValidImageUrl(url))
{ scannedUrlSet.add(url); capturedImages.push(url); }`. -/

/-- One URL of one harvested batch: the pair is
`(capturedImages, scannedUrlSet)`. -/
def captureStep (acc : List String × List String) (url : String) : List String × List String :=
  if !(acc.2.contains url) && isValidImageUrl url then
    (acc.1 ++ [url], url :: acc.2)
  else acc

/-- `newImages.forEach(...)` over one batch. -/
def captureBatch (acc : List String × List String) (batch : List String) :
    List String × List String :=
  batch.foldl captureStep acc

/-- The `capturedImages` sequence produced by folding the capture logic
over every harvested batch of one scan, starting from the empty list
and empty seen-set. -/
def captureAll (batches : List (List String)) : List String :=
  (batches.foldl captureBatch ([], [])).1

/-- Specification-side operation, written from the spec's words: keep
each URL's first occurrence, dropping later re-encounters.  `seen`
holds the URLs already emitted. -/
def dedupeAux (seen : List String) : List String → List String
  | [] => []
  | x :: xs =>
    if seen.contains x then dedupeAux seen xs
    else x :: dedupeAux (x :: seen) xs

/-- Specification-side `dedupe_preserving_first_occurrence`. -/
def dedupeFirstOccurrence (l : List String) : List String :=
  dedupeAux [] l

/-! ## The scroll loop (performSmartScrape lines 543-590)

One loop iteration is driven by what the page and the cancellation flag
present to it: the flag value at the `while (!scrapingAborted)` check,
whether the harvest throws this iteration (and the thrown message), the
batch `extractImagesFromDOM` returns, and the three layout reads
`window.innerHeight`, `window.scrollY`, `document.body.scrollHeight`.
Since the flag only changes during `await sleep(...)` and the loop body
is synchronous from the head check to the break, one flag value and one
`scrollHeight` value per iteration are faithful. -/

structure IterInput where
  abortedAtCheck : Bool
  throws : Bool
  errMsg : String
  batch : List String
  innerHeight : Int
  scrollY : Int
  scrollHeight : Int
deriving DecidableEq, Repr

/-- The mutable locals of performSmartScrape that survive an iteration
(`scannedUrlSet` is modelled as the list of its elements). -/
structure LoopState where
  capturedImages : List String
  scannedUrlSet : List String
  totalHeight : Int
  noNewContentCount : Nat
  retryCount : Nat
deriving DecidableEq, Repr

inductive LoopExit where
  | aborted
  | converged
  | fatal (message : String)
  | outOfInputs
deriving DecidableEq, Repr

/-- Result of running the loop over a finite window of iteration
inputs: final locals, the `sleep` durations performed in order, and why
the window ended.  `outOfInputs` means the window was exhausted with
the loop still running. -/
structure LoopResult where
  final : LoopState
  delays : List Nat
  exit : LoopExit
deriving DecidableEq, Repr

/-- `throw new Error("Scraping failed after " + retryCount + " retries: " + error.message)`. -/
def retryFailMsg (r : Nat) (m : String) : String :=
  "Scraping failed after " ++ toString r ++ " retries: " ++ m

/-- `(window.innerHeight + window.scrollY) >= document.body.scrollHeight - CONFIG.SCROLL_THRESHOLD`. -/
def atBottomCheck (innerHeight scrollY scrollHeight : Int) : Bool :=
  decide (scrollHeight - SCROLL_THRESHOLD ≤ innerHeight + scrollY)

/-- The harvest-and-capture part of one iteration. -/
def harvestInto (st : LoopState) (batch : List String) : LoopState :=
  { st with
    capturedImages := (captureBatch (st.capturedImages, st.scannedUrlSet) batch).1
    scannedUrlSet := (captureBatch (st.capturedImages, st.scannedUrlSet) batch).2 }

/-- The `while (!scrapingAborted)` loop of performSmartScrape, run over
a finite window of iteration inputs. -/
def scrapeLoop (st : LoopState) : List IterInput → LoopResult
  | [] => ⟨st, [], LoopExit.outOfInputs⟩
  | inp :: rest =>
    if inp.abortedAtCheck then ⟨st, [], LoopExit.aborted⟩
    else if inp.throws then
      if MAX_RETRY_ATTEMPTS ≤ st.retryCount + 1 then
        ⟨{ st with retryCount := st.retryCount + 1 }, [],
          LoopExit.fatal (retryFailMsg (st.retryCount + 1) inp.errMsg)⟩
      else
        let res := scrapeLoop { st with retryCount := st.retryCount + 1 } rest
        ⟨res.final, SCROLL_DELAY * 2 :: res.delays, res.exit⟩
    else
      let stc := harvestInto st inp.batch
      if atBottomCheck inp.innerHeight inp.scrollY inp.scrollHeight then
        if inp.scrollHeight = st.totalHeight then
          if MAX_NO_CONTENT_ATTEMPTS ≤ st.noNewContentCount + 1 then
            ⟨{ stc with noNewContentCount := st.noNewContentCount + 1 }, [],
              LoopExit.converged⟩
          else
            let res := scrapeLoop { stc with noNewContentCount := st.noNewContentCount + 1 } rest
            ⟨res.final, SCROLL_DELAY :: res.delays, res.exit⟩
        else
          let res := scrapeLoop { stc with totalHeight := inp.scrollHeight, noNewContentCount := 0 } rest
          ⟨res.final, SCROLL_DELAY :: res.delays, res.exit⟩
      else
        let res := scrapeLoop stc rest
        ⟨res.final, SCROLL_DELAY :: res.delays, res.exit⟩

/-- The locals as initialized before the loop; `totalHeight` is the
`document.body.scrollHeight` read before the first iteration. -/
def initLoopState (initialHeight : Int) : LoopState :=
  ⟨[], [], initialHeight, 0, 0⟩

/-! ## Storage upsert (saveToStorage in content.js) -/

/-- The page metadata object returned by getPageMeta, captured before
scrolling begins. -/
structure Meta where
  name : String
  logo : String
  url : String
deriving DecidableEq, Repr

/-- One persisted ScreenCollection record (`newAppData` shape). -/
structure AppData where
  id : String
  name : String
  logo : String
  sourceUrl : String
  screenCount : Nat
  screens : List String
  dateAdded : Int
  dateUpdated : Int
deriving DecidableEq, Repr

/-- JavaScript `Array.prototype.findIndex`, with `none` for `-1`. -/
def findIndexAux {α : Type} (p : α → Bool) : List α → Nat → Option Nat
  | [], _ => none
  | a :: as, i => if p a then some i else findIndexAux p as (i + 1)

def findIndex {α : Type} (p : α → Bool) (l : List α) : Option Nat :=
  findIndexAux p l 0

/-- `urlParts[urlParts.length - 1]` after `href.split("/")`: the text
after the final slash (empty when the URL ends in a slash). -/
def lastUrlPart (href : String) : String :=
  String.mk ((splitCh '/' href.toList).getLastD [])

/-- `appId = urlParts[urlParts.length - 1] || meta.name.replace(/\s+/g, "-").toLowerCase()`
(the empty string is the only falsy value a split can produce). -/
def appIdOf (href : String) (name : String) : String :=
  if lastUrlPart href = "" then slugify name else lastUrlPart href

/-- The duplicate check `a => a.name === meta.name || a.id === appId`. -/
def matchesApp (meta : Meta) (appId : String) (a : AppData) : Bool :=
  a.name == meta.name || a.id == appId

/-- Terminal result shapes returned to the trigger. -/
inductive Outcome where
  | success (count : Nat) (appName : String) (isUpdate : Bool)
  | aborted (message : String)
  | error (message : String)
deriving DecidableEq, Repr

/-- saveToStorage on the successful-write path, as a pure function of
the current page URL, the persisted `apps` sequence and the current
time: returns the response and the sequence written back.  (The quota
failure branch re-throws and writes nothing; no claim exercises it.) -/
def saveToStorage (orderedImages : List String) (meta : Meta) (href : String)
    (apps : List AppData) (now : Int) : Outcome × List AppData :=
  let appId := appIdOf href meta.name
  let newAppData : AppData :=
    { id := appId
      name := meta.name
      logo := meta.logo
      sourceUrl := meta.url
      screenCount := orderedImages.length
      screens := orderedImages
      dateAdded := now
      dateUpdated := now }
  match findIndex (matchesApp meta appId) apps with
  | some i =>
    (Outcome.success orderedImages.length meta.name true,
     apps.set i { newAppData with dateAdded := (apps.getD i newAppData).dateAdded })
  | none =>
    (Outcome.success orderedImages.length meta.name false, newAppData :: apps)

/-! ## performSmartScrape -/

/-- performSmartScrape as a function of the pre-scroll metadata, the
page URL, the initial `document.body.scrollHeight`, a window of loop
iteration inputs, the persisted store and the clock.  Returns the
terminal result together with the store after the scan, or `none` when
the window ends with the loop still running.  The outer catch turns
thrown errors into `status: "error"` results. -/
def performSmartScrape (meta : Meta) (href : String) (initialHeight : Int)
    (inputs : List IterInput) (apps : List AppData) (now : Int) :
    Option (Outcome × List AppData) :=
  if meta.name = "" then some (Outcome.error "Could not detect app name", apps)
  else
    let res := scrapeLoop (initLoopState initialHeight) inputs
    match res.exit with
    | LoopExit.aborted => some (Outcome.aborted "Scrape cancelled by user", apps)
    | LoopExit.fatal m => some (Outcome.error m, apps)
    | LoopExit.converged =>
      if res.final.capturedImages.length = 0 then
        some (Outcome.error "No screens found. This might not be a valid Mobbin app page.", apps)
      else some (saveToStorage res.final.capturedImages meta href apps now)
    | LoopExit.outOfInputs => none

/-! ## Message dispatcher (chrome.runtime.onMessage listener) -/

/-- The module-level flags of content.js. -/
structure AgentFlags where
  isScraping : Bool
  scrapingAborted : Bool
deriving DecidableEq, Repr

inductive MsgAction where
  | ping
  | getMeta
  | startScrape
  | abortScrape
deriving DecidableEq, Repr

/-- What the listener sends back (the start_scrape acknowledgement is
the deferred async result). -/
inductive MsgResponse where
  | ok
  | metaResp
  | errorInProgress
  | scrapeStarted
  | abortedResp
deriving DecidableEq, Repr

/-- The onMessage listener's effect on the module flags together with
its response. -/
def handleMessage (fl : AgentFlags) (a : MsgAction) : AgentFlags × MsgResponse :=
  match a with
  | MsgAction.ping => (fl, MsgResponse.ok)
  | MsgAction.getMeta => (fl, MsgResponse.metaResp)
  | MsgAction.startScrape =>
    if fl.isScraping then (fl, MsgResponse.errorInProgress)
    else ({ isScraping := true, scrapingAborted := false }, MsgResponse.scrapeStarted)
  | MsgAction.abortScrape =>
    ({ isScraping := false, scrapingAborted := true }, MsgResponse.abortedResp)

/-! ## Lemmas about the capture fold -/

/-- Folding the per-URL capture step over a list of URLs appends, to the
already captured sequence, the first-occurrence deduplication of the
valid URLs not yet seen. -/
theorem captureStep_fold_eq (urls : List String) :
    ∀ captured seen : List String,
      (urls.foldl captureStep (captured, seen)).1 =
        captured ++ dedupeAux seen (urls.filter isValidImageUrl) := by
  induction urls with
  | nil => intro captured seen; simp [dedupeAux]
  | cons x xs ih =>
    intro captured seen
    by_cases hv : isValidImageUrl x
    · by_cases hs : seen.contains x
      · have hmem : x ∈ seen := by simpa using hs
        have hstep : captureStep (captured, seen) x = (captured, seen) := by
          simp [captureStep, hmem]
        simp only [List.foldl_cons, hstep, ih]
        simp [List.filter_cons, hv, dedupeAux, hmem]
      · have hmem : x ∉ seen := by simpa using hs
        have hstep : captureStep (captured, seen) x = (captured ++ [x], x :: seen) := by
          simp [captureStep, hmem, hv]
        simp only [List.foldl_cons, hstep, ih]
        simp [List.filter_cons, hv, dedupeAux, hmem]
    · have hstep : captureStep (captured, seen) x = (captured, seen) := by
        simp [captureStep, hv]
      simp only [List.foldl_cons, hstep, ih]
      simp [hv]

/-- The capture fold over all batches equals the capture fold over
their concatenation. -/
theorem captureAll_eq_flatten (batches : List (List String)) :
    captureAll batches = (batches.flatten.foldl captureStep ([], [])).1 := by
  simp only [captureAll, List.foldl_flatten]
  rfl

/-- Membership in a deduplicated list implies membership in the
original list. -/
theorem mem_of_mem_dedupeAux (l : List String) :
    ∀ (seen : List String) (u : String), u ∈ dedupeAux seen l → u ∈ l := by
  induction l with
  | nil => intro seen u h; simp [dedupeAux] at h
  | cons x xs ih =>
    intro seen u h
    by_cases hs : seen.contains x
    · simp only [dedupeAux, if_pos hs] at h
      exact List.mem_cons_of_mem x (ih seen u h)
    · simp only [dedupeAux, if_neg hs, List.mem_cons] at h
      rcases h with h | h
      · exact h ▸ List.mem_cons_self x xs
      · exact List.mem_cons_of_mem x (ih (x :: seen) u h)

/-! ## Lemmas about beforeChar and extraction -/

theorem splitCh_ne_nil (sep : Char) : ∀ l : List Char, splitCh sep l ≠ [] := by
  intro l
  cases l with
  | nil => simp [splitCh]
  | cons c cs =>
    by_cases h : c = sep
    · simp [splitCh, h]
    · simp only [splitCh, if_neg h]
      cases splitCh sep cs <;> simp

theorem splitCh_headD_eq_takeWhile (sep : Char) :
    ∀ l : List Char, (splitCh sep l).headD [] = l.takeWhile (fun c => c != sep) := by
  intro l
  induction l with
  | nil => simp [splitCh]
  | cons c cs ih =>
    by_cases h : c = sep
    · simp [splitCh, h, List.takeWhile_cons]
    · simp only [splitCh, if_neg h, List.takeWhile_cons]
      have hne : (c != sep) = true := by simp [h]
      rw [hne]
      cases hcs : splitCh sep cs with
      | nil => exact absurd hcs (splitCh_ne_nil sep cs)
      | cons hh tt =>
        simp only [if_pos rfl, List.headD_cons]
        rw [← ih, hcs]
        simp

/-- `s.split(sep)[0]` never contains the separator. -/
theorem sep_not_mem_beforeChar (sep : Char) (s : String) :
    sep ∉ (beforeChar sep s).toList := by
  intro hmem
  have : (beforeChar sep s).toList = s.toList.takeWhile (fun c => c != sep) := by
    simp only [beforeChar, splitCh_headD_eq_takeWhile]
    rfl
  rw [this] at hmem
  have := List.mem_takeWhile_imp hmem
  simp at this

/-- Every URL extractImagesFromDOM harvests is the pre-`?` prefix of
some image source on the page. -/
theorem mem_extractImagesFromDOM (dom : List ImgElement) (u : String)
    (hu : u ∈ extractImagesFromDOM dom) :
    ∃ img ∈ dom, u = beforeChar '?' img.src := by
  simp only [extractImagesFromDOM, List.mem_map, List.mem_filter] at hu
  obtain ⟨img, ⟨hmem, _⟩, rfl⟩ := hu
  exact ⟨img, hmem, rfl⟩

/-- A URL the validator accepts has protocol http or https. -/
theorem scheme_of_valid (u : String) (h : isValidImageUrl u = true) :
    schemeOf u = some "http" ∨ schemeOf u = some "https" := by
  unfold isValidImageUrl at h
  by_cases he : u = ""
  · simp [he] at h
  · rw [if_neg he] at h
    cases hs : schemeOf u with
    | none => rw [hs] at h; simp at h
    | some s =>
      rw [hs] at h
      simp only [Bool.or_eq_true, decide_eq_true_eq] at h
      rcases h with h | h
      · exact Or.inl (by rw [h])
      · exact Or.inr (by rw [h])

/-! ## Claim C1 -/

/-- C1 (amended): for every finite sequence of harvested URL batches,
the captured screens sequence equals the first-occurrence deduplication
of the http(s)-valid URLs of the concatenation of the batches: each
valid URL appears exactly once, at the position of its first
occurrence, and re-encountering a URL in a later batch never changes
its position; URLs failing `isValidImageUrl` are excluded. -/
theorem capturedImages_eq_dedupe_of_valid (batches : List (List String)) :
    captureAll batches =
      dedupeFirstOccurrence (batches.flatten.filter isValidImageUrl) := by
  rw [captureAll_eq_flatten, captureStep_fold_eq]
  simp [dedupeFirstOccurrence]

/-- C1 counterexample: the batch `["ftp://e/http"]` is harvestable (its
URL passes the extraction filter `src.includes("http")`), yet the
captured sequence omits the URL because it fails http(s) validation, so
`captured` differs from the deduplicated concatenation of the batches. -/
theorem capturedImages_ne_dedupe_concat_cex :
    extractImagesFromDOM [{ src := "ftp://e/http", inListItem := false }] = ["ftp://e/http"] ∧
    captureAll [["ftp://e/http"]] = [] ∧
    dedupeFirstOccurrence (List.flatten [["ftp://e/http"]]) = ["ftp://e/http"] ∧
    captureAll [["ftp://e/http"]] ≠ dedupeFirstOccurrence (List.flatten [["ftp://e/http"]]) := by
  refine ⟨by decide, by decide, by decide, by decide⟩

/-! ## Claim C9 -/

/-- C9 (amended): every URL the scan captures has had its query string
stripped (no `?` remains; a fragment following the `?` disappears with
it, but a fragment not preceded by a query survives) and is accepted
only when it parses with scheme http or https. -/
theorem captured_urls_query_free_and_valid (doms : List (List ImgElement)) (u : String)
    (hu : u ∈ captureAll (doms.map extractImagesFromDOM)) :
    isValidImageUrl u = true ∧
    (schemeOf u = some "http" ∨ schemeOf u = some "https") ∧
    '?' ∉ u.toList := by
  rw [captureAll_eq_flatten, captureStep_fold_eq, List.nil_append] at hu
  have hu' := mem_of_mem_dedupeAux _ _ _ hu
  have hval : isValidImageUrl u = true := List.of_mem_filter hu'
  have humem : u ∈ ((doms.map extractImagesFromDOM).flatten) := List.mem_of_mem_filter hu'
  obtain ⟨batch, hb, hub⟩ := List.mem_flatten.mp humem
  obtain ⟨dom, _, rfl⟩ := List.mem_map.mp hb
  obtain ⟨img, _, rfl⟩ := mem_extractImagesFromDOM dom _ hub
  exact ⟨hval, scheme_of_valid _ hval, sep_not_mem_beforeChar '?' img.src⟩

/-- C9 witness at a concrete page: from a source with a cache-busting
query, the captured URL is query-free and http(s)-valid. -/
theorem captured_urls_query_free_and_valid_witness :
    isValidImageUrl "https://e/a" = true ∧
    (schemeOf "https://e/a" = some "http" ∨ schemeOf "https://e/a" = some "https") ∧
    '?' ∉ "https://e/a".toList :=
  captured_urls_query_free_and_valid
    [[{ src := "https://e/a?x=1", inListItem := false }]] "https://e/a" (by decide)

/-- C9 counterexample: a fragment not preceded by a query string is not
stripped, so a captured screen URL can still contain `#`. -/
theorem captured_url_keeps_fragment_cex :
    captureAll
        [extractImagesFromDOM [{ src := "https://example.com/img.png#frag", inListItem := false }]] =
      ["https://example.com/img.png#frag"] ∧
    '#' ∈ "https://example.com/img.png#frag".toList := by
  refine ⟨by decide, by decide⟩

/-! ## Lemmas about the scroll loop -/

@[simp] theorem harvestInto_totalHeight (st : LoopState) (b : List String) :
    (harvestInto st b).totalHeight = st.totalHeight := rfl

@[simp] theorem harvestInto_noNewContentCount (st : LoopState) (b : List String) :
    (harvestInto st b).noNewContentCount = st.noNewContentCount := rfl

@[simp] theorem harvestInto_retryCount (st : LoopState) (b : List String) :
    (harvestInto st b).retryCount = st.retryCount := rfl

/-- Unfolding one loop iteration whose input is at the bottom with the
height unchanged since the last check. -/
theorem scrapeLoop_cons_stable (st : LoopState) (o : IterInput) (rest : List IterInput)
    (ha : o.abortedAtCheck = false) (ht : o.throws = false)
    (hb : atBottomCheck o.innerHeight o.scrollY o.scrollHeight = true)
    (hh : o.scrollHeight = st.totalHeight) :
    scrapeLoop st (o :: rest) =
      if MAX_NO_CONTENT_ATTEMPTS ≤ st.noNewContentCount + 1 then
        ⟨{ harvestInto st o.batch with noNewContentCount := st.noNewContentCount + 1 }, [],
          LoopExit.converged⟩
      else
        ⟨(scrapeLoop { harvestInto st o.batch with
            noNewContentCount := st.noNewContentCount + 1 } rest).final,
          SCROLL_DELAY :: (scrapeLoop { harvestInto st o.batch with
            noNewContentCount := st.noNewContentCount + 1 } rest).delays,
          (scrapeLoop { harvestInto st o.batch with
            noNewContentCount := st.noNewContentCount + 1 } rest).exit⟩ := by
  simp only [scrapeLoop, ha, ht, hb, Bool.false_eq_true, if_false, if_true]
  rw [if_pos hh]

/-- Unfolding one loop iteration whose input is at the bottom with a
grown height. -/
theorem scrapeLoop_cons_grown (st : LoopState) (o : IterInput) (rest : List IterInput)
    (ha : o.abortedAtCheck = false) (ht : o.throws = false)
    (hb : atBottomCheck o.innerHeight o.scrollY o.scrollHeight = true)
    (hh : o.scrollHeight ≠ st.totalHeight) :
    scrapeLoop st (o :: rest) =
      ⟨(scrapeLoop { harvestInto st o.batch with
          totalHeight := o.scrollHeight, noNewContentCount := 0 } rest).final,
        SCROLL_DELAY :: (scrapeLoop { harvestInto st o.batch with
          totalHeight := o.scrollHeight, noNewContentCount := 0 } rest).delays,
        (scrapeLoop { harvestInto st o.batch with
          totalHeight := o.scrollHeight, noNewContentCount := 0 } rest).exit⟩ := by
  simp only [scrapeLoop, ha, ht, hb, Bool.false_eq_true, if_false, if_true]
  rw [if_neg hh]

/-- The head check observes the cancellation flag. -/
theorem scrapeLoop_cons_abort (st : LoopState) (inp : IterInput) (rest : List IterInput)
    (ha : inp.abortedAtCheck = true) :
    scrapeLoop st (inp :: rest) = ⟨st, [], LoopExit.aborted⟩ := by
  simp [scrapeLoop, ha]

/-- A harvest failure with the retry budget already spent. -/
theorem scrapeLoop_cons_fatal (st : LoopState) (inp : IterInput) (rest : List IterInput)
    (ha : inp.abortedAtCheck = false) (ht : inp.throws = true)
    (hr : MAX_RETRY_ATTEMPTS ≤ st.retryCount + 1) :
    scrapeLoop st (inp :: rest) =
      ⟨{ st with retryCount := st.retryCount + 1 }, [],
        LoopExit.fatal (retryFailMsg (st.retryCount + 1) inp.errMsg)⟩ := by
  simp [scrapeLoop, ha, ht, hr]

/-- A harvest failure within the retry budget: wait twice the settle
delay and continue. -/
theorem scrapeLoop_cons_retry (st : LoopState) (inp : IterInput) (rest : List IterInput)
    (ha : inp.abortedAtCheck = false) (ht : inp.throws = true)
    (hr : ¬ MAX_RETRY_ATTEMPTS ≤ st.retryCount + 1) :
    scrapeLoop st (inp :: rest) =
      ⟨(scrapeLoop { st with retryCount := st.retryCount + 1 } rest).final,
        SCROLL_DELAY * 2 :: (scrapeLoop { st with retryCount := st.retryCount + 1 } rest).delays,
        (scrapeLoop { st with retryCount := st.retryCount + 1 } rest).exit⟩ := by
  simp [scrapeLoop, ha, ht, hr]

/-- An iteration that is not at the bottom does no stagnation
bookkeeping. -/
theorem scrapeLoop_cons_notbottom (st : LoopState) (inp : IterInput) (rest : List IterInput)
    (ha : inp.abortedAtCheck = false) (ht : inp.throws = false)
    (hb : atBottomCheck inp.innerHeight inp.scrollY inp.scrollHeight = false) :
    scrapeLoop st (inp :: rest) =
      ⟨(scrapeLoop (harvestInto st inp.batch) rest).final,
        SCROLL_DELAY :: (scrapeLoop (harvestInto st inp.batch) rest).delays,
        (scrapeLoop (harvestInto st inp.batch) rest).exit⟩ := by
  simp [scrapeLoop, ha, ht, hb]

/-- Three consecutive at-bottom observations of one unchanged height
make the loop break by the third of them, from any loop state, with
every later input unconsumed. -/
theorem scrapeLoop_three_stable (st : LoopState) (o1 o2 o3 : IterInput) (rest : List IterInput)
    (h1a : o1.abortedAtCheck = false) (h1t : o1.throws = false)
    (h1b : atBottomCheck o1.innerHeight o1.scrollY o1.scrollHeight = true)
    (h2a : o2.abortedAtCheck = false) (h2t : o2.throws = false)
    (h2b : atBottomCheck o2.innerHeight o2.scrollY o2.scrollHeight = true)
    (h3a : o3.abortedAtCheck = false) (h3t : o3.throws = false)
    (h3b : atBottomCheck o3.innerHeight o3.scrollY o3.scrollHeight = true)
    (h12 : o2.scrollHeight = o1.scrollHeight) (h13 : o3.scrollHeight = o1.scrollHeight) :
    scrapeLoop st (o1 :: o2 :: o3 :: rest) = scrapeLoop st [o1, o2, o3] ∧
    (scrapeLoop st [o1, o2, o3]).exit = LoopExit.converged := by
  by_cases hh : o1.scrollHeight = st.totalHeight
  · rw [scrapeLoop_cons_stable st o1 (o2 :: o3 :: rest) h1a h1t h1b hh,
      scrapeLoop_cons_stable st o1 [o2, o3] h1a h1t h1b hh]
    by_cases hc : MAX_NO_CONTENT_ATTEMPTS ≤ st.noNewContentCount + 1
    · rw [if_pos hc, if_pos hc]
      exact ⟨rfl, rfl⟩
    · rw [if_neg hc, if_neg hc]
      set st1 := { harvestInto st o1.batch with
        noNewContentCount := st.noNewContentCount + 1 } with hst1
      have hh2 : o2.scrollHeight = st1.totalHeight := by
        simp [hst1, h12, hh]
      have hc2 : MAX_NO_CONTENT_ATTEMPTS ≤ st1.noNewContentCount + 1 := by
        simp [hst1, MAX_NO_CONTENT_ATTEMPTS]
      rw [scrapeLoop_cons_stable st1 o2 (o3 :: rest) h2a h2t h2b hh2,
        scrapeLoop_cons_stable st1 o2 [o3] h2a h2t h2b hh2, if_pos hc2, if_pos hc2]
      exact ⟨rfl, rfl⟩
  · rw [scrapeLoop_cons_grown st o1 (o2 :: o3 :: rest) h1a h1t h1b hh,
      scrapeLoop_cons_grown st o1 [o2, o3] h1a h1t h1b hh]
    set st1 := { harvestInto st o1.batch with
      totalHeight := o1.scrollHeight, noNewContentCount := 0 } with hst1
    have hh2 : o2.scrollHeight = st1.totalHeight := by
      simp [hst1, h12]
    have hc2 : ¬ MAX_NO_CONTENT_ATTEMPTS ≤ st1.noNewContentCount + 1 := by
      simp [hst1, MAX_NO_CONTENT_ATTEMPTS]
    rw [scrapeLoop_cons_stable st1 o2 (o3 :: rest) h2a h2t h2b hh2,
      scrapeLoop_cons_stable st1 o2 [o3] h2a h2t h2b hh2, if_neg hc2, if_neg hc2]
    set st2 := { harvestInto st1 o2.batch with
      noNewContentCount := st1.noNewContentCount + 1 } with hst2
    have hh3 : o3.scrollHeight = st2.totalHeight := by
      simp [hst2, hst1, h13]
    have hc3 : MAX_NO_CONTENT_ATTEMPTS ≤ st2.noNewContentCount + 1 := by
      simp [hst2, hst1, MAX_NO_CONTENT_ATTEMPTS]
    rw [scrapeLoop_cons_stable st2 o3 rest h3a h3t h3b hh3,
      scrapeLoop_cons_stable st2 o3 [] h3a h3t h3b hh3, if_pos hc3, if_pos hc3]
    exact ⟨rfl, rfl⟩

/-! ## Claim C2 -/

/-- C2: in every run of the scroll loop whose observations, from some
iteration onward, are at the bottom (within the 100px threshold) with
an unchanged scrollable height, the loop terminates within exactly 2
additional iterations after the first stable observation: nothing
beyond the first three stable observations is ever consumed, and the
run over those observations does not run out of input (it exits, by
convergence or an earlier abort or fatal error). -/
theorem scroll_loop_terminates_after_stability (pre : List IterInput) (st : LoopState)
    (o1 o2 o3 : IterInput) (rest : List IterInput)
    (h1a : o1.abortedAtCheck = false) (h1t : o1.throws = false)
    (h1b : atBottomCheck o1.innerHeight o1.scrollY o1.scrollHeight = true)
    (h2a : o2.abortedAtCheck = false) (h2t : o2.throws = false)
    (h2b : atBottomCheck o2.innerHeight o2.scrollY o2.scrollHeight = true)
    (h3a : o3.abortedAtCheck = false) (h3t : o3.throws = false)
    (h3b : atBottomCheck o3.innerHeight o3.scrollY o3.scrollHeight = true)
    (h12 : o2.scrollHeight = o1.scrollHeight) (h13 : o3.scrollHeight = o1.scrollHeight) :
    scrapeLoop st (pre ++ o1 :: o2 :: o3 :: rest) = scrapeLoop st (pre ++ [o1, o2, o3]) ∧
    (scrapeLoop st (pre ++ [o1, o2, o3])).exit ≠ LoopExit.outOfInputs := by
  induction pre generalizing st with
  | nil =>
    simp only [List.nil_append]
    obtain ⟨heq, hexit⟩ :=
      scrapeLoop_three_stable st o1 o2 o3 rest h1a h1t h1b h2a h2t h2b h3a h3t h3b h12 h13
    refine ⟨heq, ?_⟩
    rw [hexit]
    simp
  | cons p ps ih =>
    simp only [List.cons_append]
    by_cases hpa : p.abortedAtCheck
    · rw [scrapeLoop_cons_abort st p _ hpa, scrapeLoop_cons_abort st p _ hpa]
      exact ⟨rfl, by simp⟩
    · have hpa' : p.abortedAtCheck = false := by simpa using hpa
      by_cases hpt : p.throws
      · by_cases hr : MAX_RETRY_ATTEMPTS ≤ st.retryCount + 1
        · rw [scrapeLoop_cons_fatal st p _ hpa' hpt hr, scrapeLoop_cons_fatal st p _ hpa' hpt hr]
          exact ⟨rfl, by simp⟩
        · rw [scrapeLoop_cons_retry st p _ hpa' hpt hr, scrapeLoop_cons_retry st p _ hpa' hpt hr]
          obtain ⟨heq, hexit⟩ := ih { st with retryCount := st.retryCount + 1 }
          rw [heq]
          exact ⟨rfl, by simpa using hexit⟩
      · have hpt' : p.throws = false := by simpa using hpt
        by_cases hpb : atBottomCheck p.innerHeight p.scrollY p.scrollHeight
        · by_cases hph : p.scrollHeight = st.totalHeight
          · by_cases hpc : MAX_NO_CONTENT_ATTEMPTS ≤ st.noNewContentCount + 1
            · rw [scrapeLoop_cons_stable st p _ hpa' hpt' hpb hph,
                scrapeLoop_cons_stable st p _ hpa' hpt' hpb hph, if_pos hpc, if_pos hpc]
              exact ⟨rfl, by simp⟩
            · rw [scrapeLoop_cons_stable st p _ hpa' hpt' hpb hph,
                scrapeLoop_cons_stable st p _ hpa' hpt' hpb hph, if_neg hpc, if_neg hpc]
              obtain ⟨heq, hexit⟩ :=
                ih { harvestInto st p.batch with noNewContentCount := st.noNewContentCount + 1 }
              rw [heq]
              exact ⟨rfl, by simpa using hexit⟩
          · rw [scrapeLoop_cons_grown st p _ hpa' hpt' hpb hph,
              scrapeLoop_cons_grown st p _ hpa' hpt' hpb hph]
            obtain ⟨heq, hexit⟩ :=
              ih { harvestInto st p.batch with totalHeight := p.scrollHeight, noNewContentCount := 0 }
            rw [heq]
            exact ⟨rfl, by simpa using hexit⟩
        · have hpb' : atBottomCheck p.innerHeight p.scrollY p.scrollHeight = false := by
            simpa using hpb
          rw [scrapeLoop_cons_notbottom st p _ hpa' hpt' hpb',
            scrapeLoop_cons_notbottom st p _ hpa' hpt' hpb']
          obtain ⟨heq, hexit⟩ := ih (harvestInto st p.batch)
          rw [heq]
          exact ⟨rfl, by simpa using hexit⟩

/-- C2 witness: a loop already past one scrolling iteration that then
sees three stable at-bottom observations exits by convergence without
touching a fourth observation. -/
theorem scroll_loop_terminates_after_stability_witness :
    scrapeLoop (initLoopState 2000)
        ([⟨false, false, "", ["https://e/s1"], 800, 0, 2000⟩] ++
          ⟨false, false, "", [], 800, 1300, 2000⟩ ::
          ⟨false, false, "", [], 800, 1300, 2000⟩ ::
          ⟨false, false, "", [], 800, 1300, 2000⟩ ::
          [⟨false, false, "", ["https://e/s9"], 800, 2100, 4000⟩]) =
      scrapeLoop (initLoopState 2000)
        ([⟨false, false, "", ["https://e/s1"], 800, 0, 2000⟩] ++
          [⟨false, false, "", [], 800, 1300, 2000⟩,
            ⟨false, false, "", [], 800, 1300, 2000⟩,
            ⟨false, false, "", [], 800, 1300, 2000⟩]) ∧
    (scrapeLoop (initLoopState 2000)
        ([⟨false, false, "", ["https://e/s1"], 800, 0, 2000⟩] ++
          [⟨false, false, "", [], 800, 1300, 2000⟩,
            ⟨false, false, "", [], 800, 1300, 2000⟩,
            ⟨false, false, "", [], 800, 1300, 2000⟩])).exit ≠ LoopExit.outOfInputs :=
  scroll_loop_terminates_after_stability
    [⟨false, false, "", ["https://e/s1"], 800, 0, 2000⟩] (initLoopState 2000)
    ⟨false, false, "", [], 800, 1300, 2000⟩ ⟨false, false, "", [], 800, 1300, 2000⟩
    ⟨false, false, "", [], 800, 1300, 2000⟩ [⟨false, false, "", ["https://e/s9"], 800, 2100, 4000⟩]
    (by decide) (by decide) (by decide) (by decide) (by decide) (by decide)
    (by decide) (by decide) (by decide) (by decide) (by decide)

/-- A sample persisted record used by concrete witnesses. -/
def sampleApp : AppData :=
  ⟨"x", "A", "https://l/a", "https://m/x", 1, ["https://s/1"], 3, 4⟩

/-! ## Claim C5 -/

/-- C5: when the loop's head check observes the cancellation flag, with
K > 0 images already captured, the scan returns the aborted outcome and
the persisted store comes back unmodified: the captured images are
discarded, not saved. -/
theorem abort_discards_partial_work (meta : Meta) (href : String) (initialHeight : Int)
    (inputs : List IterInput) (apps : List AppData) (now : Int)
    (hname : meta.name ≠ "")
    (habort : (scrapeLoop (initLoopState initialHeight) inputs).exit = LoopExit.aborted)
    (hK : 0 < (scrapeLoop (initLoopState initialHeight) inputs).final.capturedImages.length) :
    performSmartScrape meta href initialHeight inputs apps now =
      some (Outcome.aborted "Scrape cancelled by user", apps) := by
  simp [performSmartScrape, hname, habort]

/-- C5 witness: a run that captures one image and then observes an
abort returns the aborted outcome with the store untouched. -/
theorem abort_discards_partial_work_witness :
    performSmartScrape ⟨"App", "https://l/l", "https://m/a"⟩ "https://m/a" 2000
        [⟨false, false, "", ["https://e/s1"], 800, 0, 2000⟩,
          ⟨true, false, "", [], 800, 0, 2000⟩]
        [sampleApp] 99 =
      some (Outcome.aborted "Scrape cancelled by user", [sampleApp]) :=
  abort_discards_partial_work _ _ _ _ _ _ (by decide) (by decide) (by decide)

/-! ## Claim C6 -/

/-- C6: a converged (non-aborted) scan that captured zero images
returns the "No screens found" error outcome and the persisted store
comes back unmodified: an empty collection is never written. -/
theorem empty_scan_reports_no_screens (meta : Meta) (href : String) (initialHeight : Int)
    (inputs : List IterInput) (apps : List AppData) (now : Int)
    (hname : meta.name ≠ "")
    (hconv : (scrapeLoop (initLoopState initialHeight) inputs).exit = LoopExit.converged)
    (hzero : (scrapeLoop (initLoopState initialHeight) inputs).final.capturedImages = []) :
    performSmartScrape meta href initialHeight inputs apps now =
      some (Outcome.error "No screens found. This might not be a valid Mobbin app page.", apps) := by
  simp [performSmartScrape, hname, hconv, hzero]

/-- C6 witness: a page already at the bottom yielding no matching
images converges after two checks and reports the error with the store
untouched. -/
theorem empty_scan_reports_no_screens_witness :
    performSmartScrape ⟨"App", "https://l/l", "https://m/a"⟩ "https://m/a" 500
        [⟨false, false, "", [], 800, 0, 500⟩, ⟨false, false, "", [], 800, 0, 500⟩]
        [sampleApp] 99 =
      some (Outcome.error "No screens found. This might not be a valid Mobbin app page.",
        [sampleApp]) :=
  empty_scan_reports_no_screens _ _ _ _ _ _ (by decide) (by decide) (by decide)

/-! ## Claim C7 -/

/-- C7: a failure thrown during one iteration's harvest is caught in
the loop; while fewer than 3 failures have accumulated the loop waits
twice the settle delay (the increased backoff) and continues, the
retry counter incremented; the failure that reaches the fixed maximum
of 3 attempts escalates to a fatal error whose message describes the
retry count and the underlying failure, and a scan ending fatally
persists nothing: the store comes back unmodified. -/
theorem harvest_retry_policy :
    (∀ (st : LoopState) (inp : IterInput) (rest : List IterInput),
      inp.abortedAtCheck = false → inp.throws = true →
      st.retryCount + 1 < MAX_RETRY_ATTEMPTS →
      scrapeLoop st (inp :: rest) =
        ⟨(scrapeLoop { st with retryCount := st.retryCount + 1 } rest).final,
          SCROLL_DELAY * 2 :: (scrapeLoop { st with retryCount := st.retryCount + 1 } rest).delays,
          (scrapeLoop { st with retryCount := st.retryCount + 1 } rest).exit⟩) ∧
    (∀ (st : LoopState) (inp : IterInput) (rest : List IterInput),
      inp.abortedAtCheck = false → inp.throws = true →
      MAX_RETRY_ATTEMPTS ≤ st.retryCount + 1 →
      scrapeLoop st (inp :: rest) =
        ⟨{ st with retryCount := st.retryCount + 1 }, [],
          LoopExit.fatal (retryFailMsg (st.retryCount + 1) inp.errMsg)⟩) ∧
    (∀ (meta : Meta) (href : String) (initialHeight : Int) (inputs : List IterInput)
        (apps : List AppData) (now : Int) (m : String),
      meta.name ≠ "" →
      (scrapeLoop (initLoopState initialHeight) inputs).exit = LoopExit.fatal m →
      performSmartScrape meta href initialHeight inputs apps now =
        some (Outcome.error m, apps)) := by
  refine ⟨?_, ?_, ?_⟩
  · intro st inp rest ha ht hr
    exact scrapeLoop_cons_retry st inp rest ha ht (by omega)
  · intro st inp rest ha ht hr
    exact scrapeLoop_cons_fatal st inp rest ha ht hr
  · intro meta href initialHeight inputs apps now m hname hfatal
    simp [performSmartScrape, hname, hfatal]

/-- C7 witness: with no failures yet, a throwing iteration retries with
a 1000ms wait; a third accumulated failure is fatal; and a scan whose
three iterations all throw ends in the descriptive fatal error, the
store untouched. -/
theorem harvest_retry_policy_witness :
    scrapeLoop (initLoopState 500) [⟨false, true, "boom", [], 0, 0, 500⟩] =
      ⟨(scrapeLoop { initLoopState 500 with retryCount := 1 } []).final,
        SCROLL_DELAY * 2 :: (scrapeLoop { initLoopState 500 with retryCount := 1 } []).delays,
        (scrapeLoop { initLoopState 500 with retryCount := 1 } []).exit⟩ ∧
    scrapeLoop { initLoopState 500 with retryCount := 2 } [⟨false, true, "boom", [], 0, 0, 500⟩] =
      ⟨{ initLoopState 500 with retryCount := 3 }, [],
        LoopExit.fatal "Scraping failed after 3 retries: boom"⟩ ∧
    performSmartScrape ⟨"App", "https://l/l", "https://m/a"⟩ "https://m/a" 500
        [⟨false, true, "boom", [], 0, 0, 500⟩, ⟨false, true, "boom", [], 0, 0, 500⟩,
          ⟨false, true, "boom", [], 0, 0, 500⟩] [sampleApp] 99 =
      some (Outcome.error "Scraping failed after 3 retries: boom", [sampleApp]) := by
  refine ⟨?_, ?_, ?_⟩
  · exact harvest_retry_policy.1 (initLoopState 500) ⟨false, true, "boom", [], 0, 0, 500⟩ []
      (by decide) (by decide) (by decide)
  · have h := harvest_retry_policy.2.1 { initLoopState 500 with retryCount := 2 }
      ⟨false, true, "boom", [], 0, 0, 500⟩ [] (by decide) (by decide) (by decide)
    rw [h]
    rfl
  · exact harvest_retry_policy.2.2 ⟨"App", "https://l/l", "https://m/a"⟩ "https://m/a" 500
      [⟨false, true, "boom", [], 0, 0, 500⟩, ⟨false, true, "boom", [], 0, 0, 500⟩,
        ⟨false, true, "boom", [], 0, 0, 500⟩] [sampleApp] 99
      "Scraping failed after 3 retries: boom" (by decide) (by decide)

/-! ## Lemmas about findIndex -/

theorem findIndexAux_succ {α : Type} (p : α → Bool) :
    ∀ (l : List α) (k : Nat),
      findIndexAux p l (k + 1) = (findIndexAux p l k).map (fun n => n + 1) := by
  intro l
  induction l with
  | nil => intro k; rfl
  | cons a as ih =>
    intro k
    by_cases h : p a <;> simp [findIndexAux, h, ih]

theorem findIndex_cons {α : Type} (p : α → Bool) (a : α) (as : List α) :
    findIndex p (a :: as) =
      if p a then some 0 else (findIndex p as).map (fun n => n + 1) := by
  by_cases h : p a <;> simp [findIndex, findIndexAux, h, findIndexAux_succ]

theorem findIndex_eq_none_iff {α : Type} (p : α → Bool) :
    ∀ l : List α, findIndex p l = none ↔ ∀ a ∈ l, p a = false := by
  intro l
  induction l with
  | nil => simp [findIndex, findIndexAux]
  | cons a as ih =>
    rw [findIndex_cons]
    by_cases h : p a <;> simp [h, ih]

theorem findIndex_eq_some_spec {α : Type} (p : α → Bool) (d : α) :
    ∀ (l : List α) (i : Nat), findIndex p l = some i →
      i < l.length ∧ p (l.getD i d) = true ∧ ∀ j, j < i → p (l.getD j d) = false := by
  intro l
  induction l with
  | nil => intro i h; simp [findIndex, findIndexAux] at h
  | cons a as ih =>
    intro i h
    rw [findIndex_cons] at h
    by_cases hp : p a
    · rw [if_pos hp] at h
      obtain rfl : 0 = i := Option.some.inj h
      refine ⟨by simp, by simpa using hp, ?_⟩
      intro j hj
      omega
    · rw [if_neg hp] at h
      obtain ⟨i', hi', rfl⟩ := Option.map_eq_some.mp h
      obtain ⟨hlen, hmatch, hfirst⟩ := ih i' hi'
      refine ⟨by simpa using hlen, by simpa using hmatch, ?_⟩
      intro j hj
      cases j with
      | zero => simpa using hp
      | succ j' =>
        rw [List.getD_cons_succ]
        exact hfirst j' (by omega)

theorem findIndex_first {α : Type} (p : α → Bool) (d : α) :
    ∀ (l : List α) (i : Nat), i < l.length → p (l.getD i d) = true →
      (∀ j, j < i → p (l.getD j d) = false) → findIndex p l = some i := by
  intro l
  induction l with
  | nil => intro i hi; simp at hi
  | cons a as ih =>
    intro i hi hmatch hfirst
    rw [findIndex_cons]
    cases i with
    | zero =>
      rw [List.getD_cons_zero] at hmatch
      rw [if_pos hmatch]
    | succ i' =>
      have hp : p a = false := by
        have := hfirst 0 (by omega)
        simpa using this
      rw [if_neg (by simp [hp])]
      have := ih i' (by simpa using hi) (by simpa using hmatch)
        (fun j hj => by
          have := hfirst (j + 1) (by omega)
          simpa using this)
      rw [this]
      rfl

/-! ## Claim C3 -/

/-- C3: the upsert overwrites, in place, the first stored entry whose
name equals the scraped name or whose id equals the derived id,
carrying that entry's dateAdded over, setting dateUpdated to now and
replacing every other field; with no matching entry the new record
(dateAdded = dateUpdated = now) is pushed onto the front; the success
result has isUpdate = true exactly in the match case and count equal to
the number of captured screens. -/
theorem saveToStorage_upsert (images : List String) (meta : Meta) (href : String)
    (apps : List AppData) (now : Int) (d : AppData) :
    (∀ i, i < apps.length →
      matchesApp meta (appIdOf href meta.name) (apps.getD i d) = true →
      (∀ j, j < i → matchesApp meta (appIdOf href meta.name) (apps.getD j d) = false) →
      saveToStorage images meta href apps now =
        (Outcome.success images.length meta.name true,
         apps.set i
           { id := appIdOf href meta.name
             name := meta.name
             logo := meta.logo
             sourceUrl := meta.url
             screenCount := images.length
             screens := images
             dateAdded := (apps.getD i d).dateAdded
             dateUpdated := now })) ∧
    ((∀ a ∈ apps, matchesApp meta (appIdOf href meta.name) a = false) →
      saveToStorage images meta href apps now =
        (Outcome.success images.length meta.name false,
         { id := appIdOf href meta.name
           name := meta.name
           logo := meta.logo
           sourceUrl := meta.url
           screenCount := images.length
           screens := images
           dateAdded := now
           dateUpdated := now } :: apps)) := by
  constructor
  · intro i hi hmatch hfirst
    have hfi : findIndex (matchesApp meta (appIdOf href meta.name)) apps = some i :=
      findIndex_first _ d apps i hi hmatch hfirst
    have hd : ∀ x : AppData, (apps.getD i x).dateAdded = (apps.getD i d).dateAdded := by
      intro x
      rw [List.getD_eq_getElem apps x hi, List.getD_eq_getElem apps d hi]
    simp only [saveToStorage, hfi, hd]
  · intro hnone
    have hfi : findIndex (matchesApp meta (appIdOf href meta.name)) apps = none :=
      (findIndex_eq_none_iff _ apps).mpr hnone
    simp only [saveToStorage, hfi]

/-- A second sample record for concrete upsert witnesses. -/
def sampleApp2 : AppData :=
  ⟨"y", "B", "https://l/b", "https://m/y", 2, ["https://s/2"], 7, 8⟩

/-- C3 witness: a scrape named "B" from a page whose id resolves to "z"
overwrites, in place, the stored entry [index 1] matching by name,
keeping its dateAdded = 7 and setting dateUpdated to now = 50. -/
theorem saveToStorage_upsert_witness :
    saveToStorage ["https://s/9"] ⟨"B", "https://l/n", "https://m/z"⟩ "https://m/z"
        [sampleApp, sampleApp2] 50 =
      (Outcome.success 1 "B" true,
       [sampleApp, ⟨"z", "B", "https://l/n", "https://m/z", 1, ["https://s/9"], 7, 50⟩]) := by
  have h := (saveToStorage_upsert ["https://s/9"] ⟨"B", "https://l/n", "https://m/z"⟩
      "https://m/z" [sampleApp, sampleApp2] 50 sampleApp).1 1 (by decide) (by decide)
      (fun j hj => by
        have hj0 : j = 0 := by omega
        subst hj0
        decide)
  exact h.trans (by decide)

/-! ## Claim C4 -/

/-- Failing the duplicate check means differing in both name and id. -/
theorem not_matchesApp_iff (meta : Meta) (appId : String) (a : AppData) :
    matchesApp meta appId a = false ↔ a.name ≠ meta.name ∧ a.id ≠ appId := by
  simp [matchesApp]

/-- Writing `x` at position `i` keeps a duplicate-free list
duplicate-free provided no other position holds `x`. -/
theorem nodup_set_of_fresh {α : Type} :
    ∀ (l : List α) (i : Nat) (x : α), l.Nodup → i < l.length →
      (∀ (j : Nat) (hj : j < l.length), j ≠ i → l[j] ≠ x) → (l.set i x).Nodup := by
  intro l
  induction l with
  | nil => intro i x h _ _; simpa using h
  | cons a as ih =>
    intro i x hnd hi hother
    cases i with
    | zero =>
      rw [List.set_cons_zero]
      rw [List.nodup_cons] at hnd ⊢
      refine ⟨?_, hnd.2⟩
      intro hmem
      obtain ⟨⟨n, hn⟩, hget⟩ := List.mem_iff_get.mp hmem
      have := hother (n + 1) (by simpa using hn) (by omega)
      apply this
      rw [← hget]
      simp [List.get_eq_getElem]
    | succ i' =>
      rw [List.set_cons_succ]
      rw [List.nodup_cons] at hnd ⊢
      constructor
      · intro hmem
        rcases List.mem_or_eq_of_mem_set hmem with hmem' | rfl
        · exact hnd.1 hmem'
        · have := hother 0 (by simp) (by omega)
          simp at this
      · exact ih i' x hnd.2 (by simpa using hi)
          (fun j hj hne => by
            have := hother (j + 1) (by simpa using hj) (by omega)
            simpa using this)

/-- C4 (amended): when at most one stored entry matches the scraped
collection by name or id, the upsert preserves the store invariant
that no two entries share a name and no two entries share an id.  (The
claimed unconditional preservation is false: see the counterexample,
where one entry matches by id while a different entry carries the
scraped name.) -/
theorem saveToStorage_preserves_unique_identity (images : List String) (meta : Meta)
    (href : String) (apps : List AppData) (now : Int) (d : AppData)
    (hn : (apps.map (fun a => a.name)).Nodup)
    (hid : (apps.map (fun a => a.id)).Nodup)
    (huniq : ∀ (j k : Nat) (hj : j < apps.length) (hk : k < apps.length),
      matchesApp meta (appIdOf href meta.name) apps[j] = true →
      matchesApp meta (appIdOf href meta.name) apps[k] = true → j = k) :
    ((saveToStorage images meta href apps now).2.map (fun a => a.name)).Nodup ∧
    ((saveToStorage images meta href apps now).2.map (fun a => a.id)).Nodup := by
  cases hfi : findIndex (matchesApp meta (appIdOf href meta.name)) apps with
  | none =>
    have hnone := (findIndex_eq_none_iff _ apps).mp hfi
    simp only [saveToStorage, hfi]
    constructor
    · rw [List.map_cons, List.nodup_cons]
      refine ⟨?_, hn⟩
      intro hmem
      obtain ⟨a, ha, hna⟩ := List.mem_map.mp hmem
      exact ((not_matchesApp_iff _ _ _).mp (hnone a ha)).1 hna
    · rw [List.map_cons, List.nodup_cons]
      refine ⟨?_, hid⟩
      intro hmem
      obtain ⟨a, ha, hia⟩ := List.mem_map.mp hmem
      exact ((not_matchesApp_iff _ _ _).mp (hnone a ha)).2 hia
  | some i =>
    obtain ⟨hlen, hmatch, _⟩ := findIndex_eq_some_spec _ d apps i hfi
    have hmatch' : matchesApp meta (appIdOf href meta.name) apps[i] = true := by
      rw [← List.getD_eq_getElem apps d hlen]
      exact hmatch
    have hother : ∀ (j : Nat) (hj : j < apps.length), j ≠ i →
        matchesApp meta (appIdOf href meta.name) apps[j] = false := by
      intro j hj hne
      by_contra hcon
      exact hne (huniq j i hj hlen (by simpa using hcon) hmatch')
    simp only [saveToStorage, hfi]
    constructor
    · rw [List.map_set]
      refine nodup_set_of_fresh _ i _ hn (by simpa using hlen) ?_
      intro j hj hne
      rw [List.getElem_map]
      exact ((not_matchesApp_iff _ _ _).mp (hother j (by simpa using hj) hne)).1
    · rw [List.map_set]
      refine nodup_set_of_fresh _ i _ hid (by simpa using hlen) ?_
      intro j hj hne
      rw [List.getElem_map]
      exact ((not_matchesApp_iff _ _ _).mp (hother j (by simpa using hj) hne)).2

/-- C4 witness: an upsert matching a unique stored entry by name keeps
names and ids duplicate-free. -/
theorem saveToStorage_preserves_unique_identity_witness :
    (((saveToStorage ["https://s/9"] ⟨"B", "https://l/n", "https://m/z"⟩ "https://m/z"
        [sampleApp, sampleApp2] 50).2.map (fun a => a.name)).Nodup) ∧
    (((saveToStorage ["https://s/9"] ⟨"B", "https://l/n", "https://m/z"⟩ "https://m/z"
        [sampleApp, sampleApp2] 50).2.map (fun a => a.id)).Nodup) :=
  saveToStorage_preserves_unique_identity ["https://s/9"] ⟨"B", "https://l/n", "https://m/z"⟩
    "https://m/z" [sampleApp, sampleApp2] 50 sampleApp (by decide) (by decide)
    (fun j k hj hk hmj hmk => by
      have hj2 : j < 2 := by simpa using hj
      have hk2 : k < 2 := by simpa using hk
      interval_cases j <;> interval_cases k <;>
        simp only [List.getElem_cons_zero, List.getElem_cons_succ] at hmj hmk <;>
        first
          | rfl
          | (exfalso; revert hmj; decide)
          | (exfalso; revert hmk; decide))

/-- C4 counterexample: the store holds distinct names ("A", "B") and
distinct ids ("x", "y"); a scrape named "B" whose URL resolves to id
"x" overwrites the first match (the id-match at position 0), leaving
two entries named "B": the invariant is not preserved. -/
theorem saveToStorage_identity_invariant_cex :
    ([sampleApp, sampleApp2].map (fun a => a.name)).Nodup ∧
    ([sampleApp, sampleApp2].map (fun a => a.id)).Nodup ∧
    ¬ (((saveToStorage ["https://s/9"] ⟨"B", "https://l/n", "https://m/x"⟩ "https://m/x"
        [sampleApp, sampleApp2] 50).2.map (fun a => a.name)).Nodup) := by
  refine ⟨by decide, by decide, by decide⟩

/-! ## Claim C8 -/

theorem toList_append (s t : String) : (s ++ t).toList = s.toList ++ t.toList := by
  cases s; cases t; rfl

theorem strMk_toList (s : String) : String.mk s.toList = s := by
  cases s; rfl

/-- Splitting distributes over an occurrence of the separator. -/
theorem splitCh_append_sep (sep : Char) (a b : List Char) :
    splitCh sep (a ++ sep :: b) = splitCh sep a ++ splitCh sep b := by
  induction a with
  | nil => simp [splitCh]
  | cons c cs ih =>
    by_cases h : c = sep
    · simp [splitCh, h, ih]
    · cases hcs : splitCh sep cs with
      | nil => exact absurd hcs (splitCh_ne_nil sep cs)
      | cons hh tt =>
        simp only [List.cons_append, splitCh, if_neg h, List.append_eq]
        rw [ih, hcs]
        simp

/-- Splitting a separator-free list returns it whole. -/
theorem splitCh_of_not_mem (sep : Char) :
    ∀ l : List Char, sep ∉ l → splitCh sep l = [l] := by
  intro l
  induction l with
  | nil => intro h; rfl
  | cons c cs ih =>
    intro h
    have hc : ¬ c = sep := fun e => h (e ▸ List.mem_cons_self c cs)
    have hcs : sep ∉ cs := fun m => h (List.mem_cons_of_mem c m)
    simp only [splitCh, if_neg hc, ih hcs]

theorem getLastD_append_right {α : Type} (xs ys : List α) (d : α) (h : ys ≠ []) :
    (xs ++ ys).getLastD d = ys.getLastD d := by
  rw [List.getLastD_eq_getLast?, List.getLastD_eq_getLast?,
    List.getLast?_append_of_ne_nil xs h]

/-- After the final slash: a URL ending in a slash-free non-empty
segment yields that segment. -/
theorem lastUrlPart_append_seg (pre seg : String) (hseg : ('/' : Char) ∉ seg.toList) :
    lastUrlPart (pre ++ "/" ++ seg) = seg := by
  unfold lastUrlPart
  rw [toList_append, toList_append,
    show ("/" : String).toList = ['/'] from rfl, List.append_assoc,
    List.singleton_append, splitCh_append_sep, splitCh_of_not_mem '/' seg.toList hseg,
    getLastD_append_right _ _ _ (by simp)]
  exact strMk_toList seg

/-- A URL ending in a slash yields the empty last part. -/
theorem lastUrlPart_trailing_slash (pre : String) :
    lastUrlPart (pre ++ "/") = "" := by
  unfold lastUrlPart
  rw [toList_append, show ("/" : String).toList = ['/'] from rfl,
    splitCh_append_sep, getLastD_append_right _ _ _ (by simp [splitCh])]
  rfl

/-- Specification-side identity resolution, written from the spec's
words for URLs of the form `scheme://host/seg/.../seg`: the last
non-empty path segment when one exists, else the slugified name. -/
def specAppId (href name : String) : String :=
  match (((splitCh '/' href.toList).drop 3).filter (fun l => !l.isEmpty)).getLast? with
  | some seg => String.mk seg
  | none => slugify name

/-- C8 (amended): the id stored for a scraped collection (every store
entry the upsert did not leave untouched carries it) is the text after
the final slash of the page URL — whatever that text is, not the last
non-empty path segment — and only when the URL ends in a slash, making
that text empty, does the id fall back to the name lower-cased with
whitespace runs replaced by hyphens. -/
theorem stored_id_resolution :
    (∀ (images : List String) (meta : Meta) (href : String) (apps : List AppData) (now : Int),
      ∀ e ∈ (saveToStorage images meta href apps now).2,
        e ∈ apps ∨ e.id = appIdOf href meta.name) ∧
    (∀ (pre seg name : String), ('/' : Char) ∉ seg.toList → seg ≠ "" →
      appIdOf (pre ++ "/" ++ seg) name = seg) ∧
    (∀ (pre name : String), appIdOf (pre ++ "/") name = slugify name) := by
  refine ⟨?_, ?_, ?_⟩
  · intro images meta href apps now e he
    cases hfi : findIndex (matchesApp meta (appIdOf href meta.name)) apps with
    | none =>
      simp only [saveToStorage, hfi] at he
      rcases List.mem_cons.mp he with rfl | h
      · exact Or.inr rfl
      · exact Or.inl h
    | some i =>
      simp only [saveToStorage, hfi] at he
      rcases List.mem_or_eq_of_mem_set he with h | rfl
      · exact Or.inl h
      · exact Or.inr rfl
  · intro pre seg name hseg hne
    unfold appIdOf
    rw [lastUrlPart_append_seg pre seg hseg, if_neg hne]
  · intro pre name
    unfold appIdOf
    rw [lastUrlPart_trailing_slash, if_pos rfl]

/-- C8 witness: a slash-free trailing segment becomes the id; a URL
ending in a slash falls back to the slugified name; the record written
to an empty store carries the derived id. -/
theorem stored_id_resolution_witness :
    ((⟨"z", "B", "https://l/n", "https://m/z", 1, ["https://s/9"], 50, 50⟩ : AppData) ∈
        ([] : List AppData) ∨
      (⟨"z", "B", "https://l/n", "https://m/z", 1, ["https://s/9"], 50, 50⟩ : AppData).id =
        appIdOf "https://m/z" "B") ∧
    appIdOf ("https://m" ++ "/" ++ "x") "Any Name" = "x" ∧
    appIdOf ("https://m/x" ++ "/") "My App" = slugify "My App" := by
  refine ⟨?_, ?_, ?_⟩
  · exact stored_id_resolution.1 ["https://s/9"] ⟨"B", "https://l/n", "https://m/z"⟩
      "https://m/z" [] 50 _ (by decide)
  · exact stored_id_resolution.2.1 "https://m" "x" "Any Name" (by decide) (by decide)
  · exact stored_id_resolution.2.2 "https://m/x" "My App"

/-- C8 counterexample: for a source URL ending in a slash the last
non-empty path segment is "foo", but the code splits on "/" and takes
the final (empty) piece, so it falls back to the slugified name and
stores id "sample-app" instead. -/
theorem stored_id_resolution_cex :
    specAppId "https://mobbin.com/apps/foo/" "Sample App" = "foo" ∧
    appIdOf "https://mobbin.com/apps/foo/" "Sample App" = "sample-app" ∧
    ((saveToStorage ["https://s/9"]
          ⟨"Sample App", "https://l/n", "https://mobbin.com/apps/foo/"⟩
          "https://mobbin.com/apps/foo/" [] 50).2.map (fun a => a.id)) = ["sample-app"] ∧
    ("sample-app" : String) ≠ "foo" := by
  refine ⟨by decide, by decide, by decide, by decide⟩

/-! ## Claim C10 -/

/-- C10: an abort_scrape request always responds with the aborted
status and unconditionally clears the in-progress flag — also when no
scan is running — so a start_scrape arriving after it is accepted and
never rejected with the "Scrape already in progress" error, even while
a previously started loop has not yet observed the cancellation flag:
the dispatcher's decision reads only the module flags. -/
theorem abort_then_start_accepted (fl : AgentFlags) :
    handleMessage fl MsgAction.abortScrape =
      ({ isScraping := false, scrapingAborted := true }, MsgResponse.abortedResp) ∧
    (handleMessage (handleMessage fl MsgAction.abortScrape).1 MsgAction.startScrape).2 =
      MsgResponse.scrapeStarted ∧
    (handleMessage (handleMessage fl MsgAction.abortScrape).1 MsgAction.startScrape).2 ≠
      MsgResponse.errorInProgress := by
  refine ⟨rfl, rfl, by simp [handleMessage]⟩

end MobbinVault
example : MobbinVault.isValidImageUrl "https://example.com/a" = true := by decide
example : MobbinVault.isValidImageUrl "ftp://e/http" = false := by decide
example : MobbinVault.isValidImageUrl "" = false := by decide
example : MobbinVault.isValidImageUrl "HTTP://X.COM/A" = true := by decide
example : MobbinVault.beforeChar '?' "https://e/a?x=1" = "https://e/a" := by decide
example : MobbinVault.slugify "My App" = "my-app" := by decide
example : MobbinVault.slugify " a  b " = "-a-b-" := by decide
example : MobbinVault.containsHttp "ftp://e/http" = true := by decide
example : MobbinVault.containsHttp "ftp://e/htt" = false := by decide
